import Mathlib

/-!
# Verification of the nas-tools CUE/audio pipeline and CLI helpers

Shallow embedding of the relevant parts of the `nas-tools` repository:

* the pair scanner of `fix-unsplit-cue` (`findCueAudioPairsInDirectory`,
  `scanCueAudioPairs` and the utilities of `utils.ts` they rely on),
* the interactive driver loop of `fix-unsplit-cue` (`run`),
* the retry loop and `filenameFromHeaders` of the `download` command,
* `getTargetDirectory` / `resolveNamingConflict` of `move-completed`.

Filesystem reads are modelled by an explicit directory tree (`FSTree`) plus a
file-existence predicate `ex : String → Bool` (the model of `fs.access`); the
JavaScript/Node builtins used by the source (`path.basename`, `path.join`,
`String.prototype.toLowerCase`, `decodeURIComponent`, ...) are modelled
explicitly as Lean functions, restricted to ASCII case mapping where the
source only ever compares ASCII extension strings.
-/

namespace NasTools

/-! ## Models of the Node/JS builtins used by `utils.ts` -/

/-- Model of `String.prototype.toLowerCase`, ASCII case mapping (the source
only uses it for ASCII extension suffix checks). -/
def lowerStr (s : String) : String :=
  String.mk (s.data.map Char.toLower)

/-- Model of `String.prototype.endsWith`. -/
def strEndsWith (s suffixStr : String) : Bool :=
  suffixStr.data.isSuffixOf s.data

/-- Model of Node's POSIX `path.basename(p)`: strip trailing slashes, then
keep the part after the last slash (`""` for an empty or all-slash path, as
Node's implementation). -/
def basenameStr (p : String) : String :=
  let trimmed := (p.data.reverse.dropWhile (fun c => c == '/')).reverse
  String.mk ((trimmed.reverse.takeWhile (fun c => c != '/')).reverse)

/-- Model of Node's POSIX `path.basename(p, ext)`: `""` when the whole path
string equals the suffix (Node's `suffix === path` special case, so
`basename(".cue", ".cue") = ""`); otherwise the basename with a trailing
`ext` removed, except that stripping never empties the result (Node keeps
the full basename when it equals the suffix, so
`basename("/a/.cue", ".cue") = ".cue"`); the suffix comparison is
case-sensitive. -/
def basenameExt (p ext : String) : String :=
  if p == ext then ""
  else
    let base := basenameStr p
    if base != ext && strEndsWith base ext then
      String.mk (base.data.take (base.data.length - ext.data.length))
    else
      base

/-- Model of POSIX `path.dirname`. -/
def dirnameStr (p : String) : String :=
  let cs := (p.data.reverse.dropWhile (fun c => c == '/')).reverse
  let pre := (cs.reverse.dropWhile (fun c => c != '/')).dropWhile (fun c => c == '/')
  if pre.isEmpty then
    (match cs with
     | [] => if p.data.isEmpty then "." else "/"
     | c :: _ => if c == '/' then "/" else ".")
  else
    String.mk pre.reverse

/-- Model of POSIX `path.extname`, computed on the basename: the substring
from the last dot, unless that dot is the leading character. -/
def extnameStr (p : String) : String :=
  let ds := (basenameStr p).data
  let afterDot := ds.reverse.takeWhile (fun c => c != '.')
  if afterDot.length == ds.length then ""
  else
    let dotIdx := ds.length - 1 - afterDot.length
    if dotIdx == 0 then "" else String.mk (ds.drop dotIdx)

/-- Binary model of `path.join` (the source only joins two clean segments at
a time): trailing slashes of the left part and a leading empty part are
normalised away. -/
def joinPath (a b : String) : String :=
  if a.isEmpty then b
  else if b.isEmpty then a
  else
    let aTrim := (a.data.reverse.dropWhile (fun c => c == '/')).reverse
    String.mk (aTrim ++ '/' :: b.data)

/-! ## `utils.ts`: extension constants and file classification -/

def FILE_EXTENSIONS.CUE : String := ".cue"

def FILE_EXTENSIONS.FLAC : String := ".flac"

def FILE_EXTENSIONS.WAV : String := ".wav"

/-- `utils.ts`: `isFlacFile = (file) => file.toLowerCase().endsWith(FILE_EXTENSIONS.FLAC)`. -/
def isFlacFile (file : String) : Bool :=
  strEndsWith (lowerStr file) FILE_EXTENSIONS.FLAC

/-- `utils.ts`: `isCueFile = (file) => file.toLowerCase().endsWith(FILE_EXTENSIONS.CUE)`. -/
def isCueFile (file : String) : Bool :=
  strEndsWith (lowerStr file) FILE_EXTENSIONS.CUE

/-- `fix-unsplit-cue.ts`: `isWavFile`. -/
def isWavFile (file : String) : Bool :=
  strEndsWith (lowerStr file) FILE_EXTENSIONS.WAV

/-- `fix-unsplit-cue.ts`: `isAudioFile = isFlacFile(file) || isWavFile(file)`. -/
def isAudioFile (file : String) : Bool :=
  isFlacFile file || isWavFile file

/-- `utils.ts`: `getBasename = (file, ext?) => ext ? path.basename(file, ext) : path.basename(file)`. -/
def getBasename (file : String) (ext : Option String) : String :=
  match ext with
  | some e => basenameExt file e
  | none => basenameStr file

/-! ## Data model of `fix-unsplit-cue.ts` -/

structure CueAudioPair where
  directory : String
  cueFile : String
  audioFile : String
deriving DecidableEq, Repr

structure ScriptOptions where
  ignoreFailed : Bool
  yes : Bool
deriving DecidableEq, Repr

/-! ## Pair scanner (`findCueAudioPairsInDirectory`, `scanCueAudioPairs`)

`files?` is the result of `readDirectory` (`none` models the read throwing,
which the source catches by returning no pairs), and `ex` models `exists`
(`fs.access`). -/

/-- The per-audio-file body of the inner loop of
`findCueAudioPairsInDirectory`: compute the audio basename, flac checked
before wav (other files `continue`). -/
def audioBasename (audioFile : String) : Option String :=
  if isFlacFile audioFile then some (getBasename audioFile (some FILE_EXTENSIONS.FLAC))
  else if isWavFile audioFile then some (getBasename audioFile (some FILE_EXTENSIONS.WAV))
  else none

/-- The acceptance test of the inner loop of `findCueAudioPairsInDirectory`:
the basenames must be equal and both files must still exist. -/
def audioMatches (searchPath : String) (ex : String → Bool)
    (cueFile cueBasename audioFile : String) : Bool :=
  match audioBasename audioFile with
  | none => false
  | some ab =>
      cueBasename == ab
        && ex (joinPath searchPath cueFile)
        && ex (joinPath searchPath audioFile)

/-- The inner `for (const audioFile of audioFiles)` loop of
`findCueAudioPairsInDirectory`: the first audio file whose basename equals
the cue basename and which passes both existence checks wins (`break`). -/
def pairForCue (searchPath : String) (ex : String → Bool)
    (audioFiles : List String) (cueFile : String) : Option CueAudioPair :=
  let cueBasename := getBasename cueFile (some FILE_EXTENSIONS.CUE)
  (audioFiles.find? (audioMatches searchPath ex cueFile cueBasename)).map
    (fun audioFile => { directory := searchPath, cueFile := cueFile, audioFile := audioFile })

/-- `fix-unsplit-cue.ts` `findCueAudioPairsInDirectory`: classify the listing
into cue and audio files, skip the directory altogether when `ignoreFailed`
is set and the listing contains `__temp_split`, and otherwise collect the
first match for each cue file. An unreadable directory (`files? = none`,
the `catch` branch) yields no pairs. -/
def findCueAudioPairsInDirectory (searchPath : String) (files? : Option (List String))
    (ex : String → Bool) (options : ScriptOptions) : List CueAudioPair :=
  match files? with
  | none => []
  | some files =>
      let cueFiles := files.filter isCueFile
      let audioFiles := files.filter isAudioFile
      if options.ignoreFailed && files.contains "__temp_split" then []
      else cueFiles.filterMap (pairForCue searchPath ex audioFiles)

/-- A directory tree: the model of the filesystem the scanner walks.
`readable = false` models a directory whose `readdir` throws. Files and
subdirectory names together form the `readdir` listing. -/
inductive FSTree where
  | node (readable : Bool) (files : List String) (subdirs : List (String × FSTree))
deriving Repr

/-- The `readdir` listing of a tree node (plain names, files and
subdirectories alike), `none` when the directory is unreadable. -/
def FSTree.listing : FSTree → Option (List String)
  | .node readable files subdirs =>
      if readable then some (files ++ subdirs.map (fun e => e.1)) else none

mutual

/-- `fix-unsplit-cue.ts` `scanCueAudioPairs`: pairs of the current directory
first, then recursion into every subdirectory; an unreadable directory is
caught and contributes the pairs found so far (none). -/
def scanCueAudioPairs (searchPath : String) (ex : String → Bool)
    (options : ScriptOptions) : FSTree → List CueAudioPair
  | .node readable files subdirs =>
      if readable then
        findCueAudioPairsInDirectory searchPath (some (files ++ subdirs.map (fun e => e.1)))
            ex options
          ++ scanSubdirList searchPath ex options subdirs
      else
        findCueAudioPairsInDirectory searchPath none ex options

/-- The `for (const subdir of subdirectories)` loop of `scanCueAudioPairs`. -/
def scanSubdirList (searchPath : String) (ex : String → Bool)
    (options : ScriptOptions) : List (String × FSTree) → List CueAudioPair
  | [] => []
  | (name, sub) :: rest =>
      scanCueAudioPairs (joinPath searchPath name) ex options sub
        ++ scanSubdirList searchPath ex options rest

end

mutual

/-- The readable directories the scan visits, with their `readdir` listings:
the statement-side companion of `scanCueAudioPairs` used to express that a
produced pair's files come from one single directory listing. -/
def dirListings (searchPath : String) : FSTree → List (String × List String)
  | .node readable files subdirs =>
      if readable then
        (searchPath, files ++ subdirs.map (fun e => e.1)) :: dirListingsList searchPath subdirs
      else []

/-- `dirListings` over a subdirectory list. -/
def dirListingsList (searchPath : String) : List (String × FSTree) → List (String × List String)
  | [] => []
  | (name, sub) :: rest =>
      dirListings (joinPath searchPath name) sub ++ dirListingsList searchPath rest

end

/-! ## Interactive driver of `fix-unsplit-cue.ts` (`processCueAudioPair`, `run`)

The outcomes of the two external bash invocations (`split_cue_audio`,
`cleanup_temp_split`) and the user's confirmations are supplied as oracles. -/

/-- `fix-unsplit-cue.ts` `processCueAudioPair`: a failing split command is
caught and yields `false`; the cleanup command runs only when confirmed, its
failure is caught the same way; otherwise the pair is reported processed. -/
def processCueAudioPair (splitOk askCleanup cleanupOk : CueAudioPair → Bool)
    (pair : CueAudioPair) : Bool :=
  if splitOk pair then
    if askCleanup pair then cleanupOk pair else true
  else false

/-- The state the driver loop of `run` accumulates: the pairs whose
processing began (in order) and the success/failure counters passed to
`displaySummary`. -/
structure RunOutcome where
  attempted : List CueAudioPair
  successCount : Nat
  failureCount : Nat
deriving DecidableEq, Repr

/-- The `for (const pair of pairs)` loop of `run`: a declined per-pair
confirmation `continue`s to the next pair; a failed processing `break`s
(fail-fast: the rest of the queue is never reached). -/
def processLoop (askProcess process : CueAudioPair → Bool) :
    List CueAudioPair → RunOutcome
  | [] => ⟨[], 0, 0⟩
  | pair :: rest =>
      if askProcess pair then
        if process pair then
          let out := processLoop askProcess process rest
          ⟨pair :: out.attempted, out.successCount + 1, out.failureCount⟩
        else ⟨[pair], 0, 1⟩
      else processLoop askProcess process rest

/-- `run`'s `ask` helper: `options.yes` short-circuits every confirmation. -/
def mkAsk (yes : Bool) (user : CueAudioPair → Bool) : CueAudioPair → Bool :=
  fun pair => if yes then true else user pair

/-! ## The `download` command's retry loop (`src/cli/commands/download.ts`)

`fetchOk k` is the oracle for whether the fetch on loop pass `k` (the value
of `attempt` at the top of the pass) succeeds with a 2xx status. -/

structure DownloadRun where
  attempts : Nat
  delays : List Nat
  success : Bool
deriving DecidableEq, Repr

/-- The `while (attempt <= options.retries)` loop of the download command's
`run`: before each retry pass (`attempt > 0`) it sleeps `500 * attempt` ms
(recorded in `delays`); a successful fetch returns at once; a failing fetch
increments `attempt`, and once `attempt` exceeds `retries` the last error is
re-thrown (overall failure). `attempts` counts the fetch calls made. -/
def downloadLoop (retries : Nat) (fetchOk : Nat → Bool) (attempt : Nat) : DownloadRun :=
  if _h : attempt ≤ retries then
    let delays := if 0 < attempt then [500 * attempt] else []
    if fetchOk attempt then ⟨1, delays, true⟩
    else
      let rest := downloadLoop retries fetchOk (attempt + 1)
      ⟨rest.attempts + 1, delays ++ rest.delays, rest.success⟩
  else ⟨0, [], false⟩
termination_by retries + 1 - attempt
decreasing_by omega

/-- `run` of the download command starts the loop at `attempt = 0`. -/
def runDownload (retries : Nat) (fetchOk : Nat → Bool) : DownloadRun :=
  downloadLoop retries fetchOk 0

/-- The CLI action around `run`: a rejected `run` is caught and the process
exits with code 1. -/
def downloadExitCode (retries : Nat) (fetchOk : Nat → Bool) : Nat :=
  if (runDownload retries fetchOk).success then 0 else 1

/-! ## Filename derivation of the `download` command (`filenameFromHeaders`)

The two regular expressions of `download.ts`,

* `RFC5987_RE  = /filename\*\s*=\s*(?:UTF-8'')?([^;]+)/i` and
* `RFC5987_RE_2 = /filename\s*=\s*("?)([^";]+)\1/i`,

are modelled by explicit leftmost-match scanners with the (only) backtracking
the patterns admit; `decodeURIComponent` is modelled including its UTF-8
multi-byte handling and `URIError` (as `none`). The `\s` class and the
case-insensitive flag are modelled over ASCII. -/

/-- The double-quote character. -/
def quoteD : Char := Char.ofNat 34

/-- The single-quote (apostrophe) character. -/
def quoteS : Char := Char.ofNat 39

/-- ASCII model of the JS regex class `\s`. -/
def isJsSpace (c : Char) : Bool :=
  c == ' ' || c == '\t' || c == '\n' || c == '\r' || c == Char.ofNat 11 || c == Char.ofNat 12

/-- Match a literal pattern case-insensitively (ASCII) at the head of the
input, returning the rest of the input. -/
def stripCi : List Char → List Char → Option (List Char)
  | rest, [] => some rest
  | [], _ :: _ => none
  | c :: cs, p :: ps => if c.toLower == p.toLower then stripCi cs ps else none

/-- The literal `UTF-8''` marker of the RFC 5987 form. -/
def utf8Marker : List Char := "UTF-8".data ++ [quoteS, quoteS]

/-- Try `RFC5987_RE` anchored at the current position. The optional
`(?:UTF-8'')?` group is greedy but backtracks when `([^;]+)` would otherwise
be empty. -/
def starMatchAt (cs : List Char) : Option (List Char) := do
  let r1 ← stripCi cs ("filename*").data
  let r2 := r1.dropWhile isJsSpace
  match r2 with
  | '=' :: r3 =>
      let r4 := r3.dropWhile isJsSpace
      match stripCi r4 utf8Marker with
      | some r5 =>
          let cap := r5.takeWhile (fun c => c != ';')
          if cap.isEmpty then
            let cap2 := r4.takeWhile (fun c => c != ';')
            if cap2.isEmpty then none else some cap2
          else some cap
      | none =>
          let cap := r4.takeWhile (fun c => c != ';')
          if cap.isEmpty then none else some cap
  | _ => none

/-- Leftmost match of `RFC5987_RE` (capture group 1), as `String.prototype.match`. -/
def findStarCapture : List Char → Option (List Char)
  | [] => none
  | c :: rest =>
      match starMatchAt (c :: rest) with
      | some cap => some cap
      | none => findStarCapture rest

/-- Try `RFC5987_RE_2` anchored at the current position (capture group 2).
When the optional quote of group 1 is taken, the backreference `\1` demands
a closing quote right after the captured run; backtracking group 1 to the
empty string cannot help because group 2 excludes the quote character. -/
def plainMatchAt (cs : List Char) : Option (List Char) := do
  let r1 ← stripCi cs ("filename").data
  let r2 := r1.dropWhile isJsSpace
  match r2 with
  | '=' :: r3 =>
      let r4 := r3.dropWhile isJsSpace
      match r4 with
      | [] => none
      | q :: r5 =>
          if q == quoteD then
            let cap := r5.takeWhile (fun c => c != quoteD && c != ';')
            if cap.isEmpty then none
            else
              match r5.drop cap.length with
              | c2 :: _ => if c2 == quoteD then some cap else none
              | [] => none
          else
            let cap := r4.takeWhile (fun c => c != quoteD && c != ';')
            if cap.isEmpty then none else some cap
  | _ => none

/-- Leftmost match of `RFC5987_RE_2` (capture group 2). -/
def findPlainCapture : List Char → Option (List Char)
  | [] => none
  | c :: rest =>
      match plainMatchAt (c :: rest) with
      | some cap => some cap
      | none => findPlainCapture rest

/-- Model of `.replace(/^["']|["']$/g, "")`: one leading and one trailing
quote character are removed. -/
def stripOuterQuotes (cs : List Char) : List Char :=
  let cs1 := match cs with
    | c :: rest => if c == quoteD || c == quoteS then rest else cs
    | [] => []
  match cs1.reverse with
  | c :: rest => if c == quoteD || c == quoteS then rest.reverse else cs1
  | [] => cs1

/-- Model of `String.prototype.trim` (ASCII whitespace). -/
def trimList (cs : List Char) : List Char :=
  ((cs.dropWhile isJsSpace).reverse.dropWhile isJsSpace).reverse

/-- A hexadecimal digit's value (model of the hex digits of a `%XX` escape,
case-insensitive). -/
def hexDigit (c : Char) : Option Nat :=
  let n := c.toNat
  if 48 ≤ n ∧ n ≤ 57 then some (n - 48)
  else if 65 ≤ n ∧ n ≤ 70 then some (n - 55)
  else if 97 ≤ n ∧ n ≤ 102 then some (n - 87)
  else none

/-- A scalar value as a `Char`, `none` for surrogates / out-of-range values
(where `decodeURIComponent` throws `URIError`). -/
def charOfValid (n : Nat) : Option Char :=
  if n.isValidChar then some (Char.ofNat n) else none

/-- Model of the ECMAScript `decodeURIComponent` builtin: percent escapes
are decoded bytewise, multi-byte UTF-8 sequences must consist of consecutive
escapes with valid continuation bytes and must not be overlong; any
malformed input throws `URIError` (`none`). -/
def decodeURIComponentM : List Char → Option (List Char)
  | [] => some []
  | '%' :: a :: b :: rest => do
      let x ← hexDigit a
      let y ← hexDigit b
      let b1 := 16 * x + y
      if b1 < 128 then
        let tail ← decodeURIComponentM rest
        let c ← charOfValid b1
        pure (c :: tail)
      else if b1 < 192 then none
      else if b1 < 224 then
        match rest with
        | '%' :: a2 :: b2 :: rest2 => do
            let x2 ← hexDigit a2
            let y2 ← hexDigit b2
            let v2 := 16 * x2 + y2
            if 128 ≤ v2 ∧ v2 < 192 then
              let cp := (b1 - 192) * 64 + (v2 - 128)
              if cp < 128 then none
              else do
                let tail ← decodeURIComponentM rest2
                let c ← charOfValid cp
                pure (c :: tail)
            else none
        | _ => none
      else if b1 < 240 then
        match rest with
        | '%' :: a2 :: b2 :: '%' :: a3 :: b3 :: rest2 => do
            let x2 ← hexDigit a2
            let y2 ← hexDigit b2
            let x3 ← hexDigit a3
            let y3 ← hexDigit b3
            let v2 := 16 * x2 + y2
            let v3 := 16 * x3 + y3
            if 128 ≤ v2 ∧ v2 < 192 ∧ 128 ≤ v3 ∧ v3 < 192 then
              let cp := (b1 - 224) * 4096 + (v2 - 128) * 64 + (v3 - 128)
              if cp < 2048 then none
              else do
                let tail ← decodeURIComponentM rest2
                let c ← charOfValid cp
                pure (c :: tail)
            else none
        | _ => none
      else if b1 < 248 then
        match rest with
        | '%' :: a2 :: b2 :: '%' :: a3 :: b3 :: '%' :: a4 :: b4 :: rest2 => do
            let x2 ← hexDigit a2
            let y2 ← hexDigit b2
            let x3 ← hexDigit a3
            let y3 ← hexDigit b3
            let x4 ← hexDigit a4
            let y4 ← hexDigit b4
            let v2 := 16 * x2 + y2
            let v3 := 16 * x3 + y3
            let v4 := 16 * x4 + y4
            if 128 ≤ v2 ∧ v2 < 192 ∧ 128 ≤ v3 ∧ v3 < 192 ∧ 128 ≤ v4 ∧ v4 < 192 then
              let cp := (b1 - 240) * 262144 + (v2 - 128) * 4096 + (v3 - 128) * 64 + (v4 - 128)
              if cp < 65536 then none
              else do
                let tail ← decodeURIComponentM rest2
                let c ← charOfValid cp
                pure (c :: tail)
            else none
        | _ => none
      else none
  | '%' :: _ => none
  | c :: rest => do
      let tail ← decodeURIComponentM rest
      pure (c :: tail)

/-- Skip everything up to and including the first `://`. -/
def dropThroughSchemeSep : List Char → Option (List Char)
  | [] => none
  | ':' :: '/' :: '/' :: rest => some rest
  | _ :: rest => dropThroughSchemeSep rest

/-- Model of `new URL(url).pathname`, simplified to absolute URLs with an
authority part: the part after the authority up to a query or fragment
(`"/"` when absent). -/
def urlPathname (url : String) : String :=
  match dropThroughSchemeSep url.data with
  | none => "/"
  | some afterScheme =>
      let afterHost := afterScheme.dropWhile (fun c => c != '/' && c != '?' && c != '#')
      match afterHost with
      | '/' :: _ => String.mk (afterHost.takeWhile (fun c => c != '?' && c != '#'))
      | _ => "/"

/-- `download.ts` `filenameFromHeaders`: the RFC 5987 `filename*=` form is
tried first (its capture is unquoted, trimmed and percent-decoded; a
`URIError` of this unguarded decode escapes the function, modelled as
`none`); then the plain `filename=` form (percent-decoding failures fall
back to the raw capture); the basename of the URL path — or `download.bin`
when that is empty — is the last resort. A missing header (the source also
collapses an array header to its first element) uses the fallback. -/
def filenameFromHeaders (url : String) (cd? : Option String) : Option String :=
  let fallbackName :=
    if (basenameStr (urlPathname url)).isEmpty then "download.bin"
    else basenameStr (urlPathname url)
  match cd? with
  | none => some fallbackName
  | some cd =>
      match findStarCapture cd.data with
      | some cap =>
          (decodeURIComponentM (trimList (stripOuterQuotes cap))).map String.mk
      | none =>
          match findPlainCapture cd.data with
          | some p =>
              some (match decodeURIComponentM p with
                    | some dec => String.mk dec
                    | none => String.mk p)
          | none => some fallbackName

/-! ## Artist buckets of `move-completed.js` (`getTargetDirectory`,
`resolveNamingConflict`)

`charAt(0).toUpperCase()` and the `/^[A-D]/i`-style patterns are modelled
over ASCII; `ex` models `exists` (`fs.access`), and the unbounded `while`
loop of `resolveNamingConflict` is given explicit fuel (`none` = the loop
has not terminated within the fuel). -/

/-- `lo ≤ c ≤ hi` on code points: the model of a regex character range. -/
def charBetween (lo hi c : Char) : Bool :=
  decide (lo.toNat ≤ c.toNat ∧ c.toNat ≤ hi.toNat)

/-- `String.prototype.toUpperCase` applied to the one-character string
`charAt(0)`, as the string it produces. The model maps ASCII lowercase
letters to their uppercase and keeps every other character; JS additionally
has Unicode special-case expansions (e.g. `"ß".toUpperCase() = "SS"`) that
are outside this model, so every theorem below about the bucket choice
restricts the artist name's first character to ASCII letters and digits,
where the model is exact. -/
def toUpperJS (c : Char) : List Char :=
  if charBetween 'a' 'z' c then [Char.ofNat (c.toNat - 32)] else [c]

/-- `move-completed.js` `ALPHABETICAL_RANGES`: bucket names with their
`/^[X-Y]/i` test (applied to the already-uppercased first letter). -/
def ALPHABETICAL_RANGES : List (String × (Char → Bool)) :=
  [("A-D", fun c => charBetween 'A' 'D' c || charBetween 'a' 'd' c),
   ("E-F", fun c => charBetween 'E' 'F' c || charBetween 'e' 'f' c),
   ("G-I", fun c => charBetween 'G' 'I' c || charBetween 'g' 'i' c),
   ("J-M", fun c => charBetween 'J' 'M' c || charBetween 'j' 'm' c),
   ("N-Q", fun c => charBetween 'N' 'Q' c || charBetween 'n' 'q' c),
   ("R-T", fun c => charBetween 'R' 'T' c || charBetween 'r' 't' c),
   ("U-Z", fun c => charBetween 'U' 'Z' c || charBetween 'u' 'z' c)]

/-- `move-completed.js` `getTargetDirectory`: `firstLetter` is the (possibly
multi-character, possibly empty) string `charAt(0).toUpperCase()`, and each
anchored pattern `/^[X-Y]/i` tests its first character; the first matching
range wins; a digit-initial artist (`/^\d/` on the original name) goes to
the extra `A-Z` bucket, the remaining fallback is `U-Z`. Faithful to the
code whenever `toUpperJS` is (first character ASCII). -/
def getTargetDirectory (artistName targetDir : String) : String :=
  let firstLetter : List Char :=
    match artistName.data with
    | [] => []
    | c :: _ => toUpperJS c
  match ALPHABETICAL_RANGES.find?
      (fun range => match firstLetter with | [] => false | u :: _ => range.2 u) with
  | some range => joinPath (joinPath targetDir range.1) artistName
  | none =>
      if (match artistName.data with | c :: _ => charBetween '0' '9' c | [] => false) then
        joinPath (joinPath targetDir "A-Z") artistName
      else joinPath (joinPath targetDir "U-Z") artistName

/-- The bucket `getTargetDirectory` selects, as a function of the artist
name's first character (statement-side accessor). -/
def letterBucket (c : Char) : String :=
  match ALPHABETICAL_RANGES.find?
      (fun range => match toUpperJS c with | [] => false | u :: _ => range.2 u) with
  | some range => range.1
  | none => if charBetween '0' '9' c then "A-Z" else "U-Z"

/-- The candidate path `resolveNamingConflict` builds for a given counter:
`dir/name (counter)ext`, from `path.dirname`/`basename`/`extname` of the
original target path. -/
def conflictCandidate (targetPath : String) (counter : Nat) : String :=
  let dir := dirnameStr targetPath
  let base := basenameStr targetPath
  let ext := extnameStr base
  let name := basenameExt base ext
  joinPath dir (name ++ " (" ++ toString counter ++ ")" ++ ext)

/-- The `while (await exists(newPath))` loop of `resolveNamingConflict`. -/
def resolveLoop (ex : String → Bool) (targetPath : String) :
    Nat → String → Nat → Option (String × Nat)
  | 0, _, _ => none
  | fuel + 1, newPath, counter =>
      if ex newPath then
        resolveLoop ex targetPath fuel (conflictCandidate targetPath counter) (counter + 1)
      else some (newPath, counter)

/-- `move-completed.js` `resolveNamingConflict`: in dry-run mode the target
path is returned untouched; otherwise the first non-existing candidate of
`targetPath, targetPath (1), targetPath (2), …` is chosen. -/
def resolveNamingConflict (ex : String → Bool) (dryRun : Bool) (targetPath : String)
    (fuel : Nat) : Option String :=
  if dryRun then some targetPath
  else (resolveLoop ex targetPath fuel targetPath 1).map (fun r => r.1)

/-! ## Filesystem-operation traces of the pair scanner

To state that scanning mutates nothing, the scanner is re-embedded so that
every filesystem call it makes (`readDirectory`, `readDirectoryWithTypes`,
`exists`) is recorded in order as an `FSOp`; the op language also contains
the mutating primitives the rest of the repository uses (`fs.rename`,
`fs.mkdir`, `fs.writeFile`) together with their effect on a filesystem
model, so that "no mutation" is expressible. -/

inductive FSOp where
  | readDir (path : String)
  | access (path : String)
  | rename (src dst : String)
  | mkdir (path : String)
  | write (path : String)
deriving DecidableEq, Repr

/-- Whether an operation mutates the filesystem. -/
def FSOp.isMutation : FSOp → Bool
  | .readDir _ => false
  | .access _ => false
  | .rename _ _ => true
  | .mkdir _ => true
  | .write _ => true

/-- A filesystem state as the operations observe/affect it. -/
structure FSModel where
  listing : String → Option (List String)
  present : String → Bool

/-- The state transition of each operation: reads leave the state untouched,
mutations change the `present` map. -/
def applyOp (op : FSOp) (m : FSModel) : FSModel :=
  match op with
  | .readDir _ => m
  | .access _ => m
  | .mkdir p => { m with present := fun q => q == p || m.present q }
  | .write p => { m with present := fun q => q == p || m.present q }
  | .rename src dst =>
      { m with present := fun q => if q == src then false else q == dst || m.present q }

/-- Run a trace of operations against a filesystem state. -/
def runOps (ops : List FSOp) (m : FSModel) : FSModel :=
  ops.foldl (fun s op => applyOp op s) m

/-- Trace-recording version of the inner audio-file loop of
`findCueAudioPairsInDirectory`: each basename match triggers the two
`exists` checks (one `fs.access` each); the loop `break`s at the first full
match. -/
def findAudioLoopOps (searchPath : String) (ex : String → Bool)
    (cueFile cueBasename : String) : List String → Option String × List FSOp
  | [] => (none, [])
  | audioFile :: rest =>
      match audioBasename audioFile with
      | none => findAudioLoopOps searchPath ex cueFile cueBasename rest
      | some ab =>
          if cueBasename == ab then
            let cuePath := joinPath searchPath cueFile
            let audioPath := joinPath searchPath audioFile
            let ops := [FSOp.access cuePath, FSOp.access audioPath]
            if ex cuePath && ex audioPath then (some audioFile, ops)
            else
              let next := findAudioLoopOps searchPath ex cueFile cueBasename rest
              (next.1, ops ++ next.2)
          else findAudioLoopOps searchPath ex cueFile cueBasename rest

/-- Trace-recording version of the outer cue-file loop of
`findCueAudioPairsInDirectory`. -/
def cueLoopOps (searchPath : String) (ex : String → Bool) (audioFiles : List String) :
    List String → List CueAudioPair × List FSOp
  | [] => ([], [])
  | cueFile :: rest =>
      let found := findAudioLoopOps searchPath ex cueFile
        (getBasename cueFile (some FILE_EXTENSIONS.CUE)) audioFiles
      let next := cueLoopOps searchPath ex audioFiles rest
      match found.1 with
      | some audioFile =>
          (CueAudioPair.mk searchPath cueFile audioFile :: next.1, found.2 ++ next.2)
      | none => (next.1, found.2 ++ next.2)

/-- Trace-recording version of `findCueAudioPairsInDirectory`: the
`readDirectory` call is recorded even when it fails or when the
`__temp_split` skip fires. -/
def findCueAudioPairsInDirectoryOps (searchPath : String) (files? : Option (List String))
    (ex : String → Bool) (options : ScriptOptions) : List CueAudioPair × List FSOp :=
  match files? with
  | none => ([], [FSOp.readDir searchPath])
  | some files =>
      if options.ignoreFailed && files.contains "__temp_split" then
        ([], [FSOp.readDir searchPath])
      else
        let res := cueLoopOps searchPath ex (files.filter isAudioFile)
          (files.filter isCueFile)
        (res.1, FSOp.readDir searchPath :: res.2)

mutual

/-- Trace-recording version of `scanCueAudioPairs`: the directory-level scan
runs first (its `readDirectory` and `exists` calls), then
`readDirectoryWithTypes` on the same directory, then the recursion; on an
unreadable directory both reads are attempted and fail. -/
def scanCueAudioPairsOps (searchPath : String) (ex : String → Bool)
    (options : ScriptOptions) : FSTree → List CueAudioPair × List FSOp
  | .node readable files subdirs =>
      if readable then
        let dir := findCueAudioPairsInDirectoryOps searchPath
          (some (files ++ subdirs.map (fun e => e.1))) ex options
        let sub := scanSubdirListOps searchPath ex options subdirs
        (dir.1 ++ sub.1, dir.2 ++ FSOp.readDir searchPath :: sub.2)
      else
        let dir := findCueAudioPairsInDirectoryOps searchPath none ex options
        (dir.1, dir.2 ++ [FSOp.readDir searchPath])

/-- Trace-recording version of `scanSubdirList`. -/
def scanSubdirListOps (searchPath : String) (ex : String → Bool)
    (options : ScriptOptions) : List (String × FSTree) → List CueAudioPair × List FSOp
  | [] => ([], [])
  | (name, sub) :: rest =>
      let head := scanCueAudioPairsOps (joinPath searchPath name) ex options sub
      let tail := scanSubdirListOps searchPath ex options rest
      (head.1 ++ tail.1, head.2 ++ tail.2)

end

/-! ## Helper lemmas about the pair scanner -/

theorem find?_append_first {α : Type} {p : α → Bool} {pre post : List α} {a : α}
    (hpre : ∀ b ∈ pre, p b = false) (ha : p a = true) :
    (pre ++ a :: post).find? p = some a := by
  induction pre with
  | nil => simpa using List.find?_cons_of_pos post ha
  | cons b bs ih =>
      have hb : p b = false := hpre b (by simp)
      rw [List.cons_append, List.find?_cons_of_neg _ (by simp [hb])]
      exact ih (fun x hx => hpre x (by simp [hx]))

/-- Everything true of a pair produced by `findCueAudioPairsInDirectory`:
it records the scanned directory, both files occur in the listing, they are
classified as cue resp. audio, their basenames (extension stripped, flac
checked before wav) agree, and both passed the existence check. -/
theorem mem_findDir_props {searchPath : String} {files : List String} {ex : String → Bool}
    {options : ScriptOptions} {p : CueAudioPair}
    (hp : p ∈ findCueAudioPairsInDirectory searchPath (some files) ex options) :
    p.directory = searchPath ∧ p.cueFile ∈ files ∧ p.audioFile ∈ files ∧
    isCueFile p.cueFile = true ∧ isAudioFile p.audioFile = true ∧
    audioBasename p.audioFile = some (getBasename p.cueFile (some FILE_EXTENSIONS.CUE)) ∧
    ex (joinPath searchPath p.cueFile) = true ∧ ex (joinPath searchPath p.audioFile) = true := by
  simp only [findCueAudioPairsInDirectory] at hp
  cases hcond : (options.ignoreFailed && files.contains "__temp_split") with
  | true => rw [hcond, if_pos rfl] at hp; simp at hp
  | false =>
    rw [hcond, if_neg Bool.false_ne_true, List.mem_filterMap] at hp
    obtain ⟨cueFile, hcfMem, hpc⟩ := hp
    rw [List.mem_filter] at hcfMem
    simp only [pairForCue] at hpc
    rw [Option.map_eq_some'] at hpc
    obtain ⟨audioFile, hfind, hmk⟩ := hpc
    have hafMem := List.mem_of_find?_eq_some hfind
    rw [List.mem_filter] at hafMem
    have hmatch := List.find?_some hfind
    simp only [audioMatches] at hmatch
    cases hab : audioBasename audioFile with
    | none => rw [hab] at hmatch; simp at hmatch
    | some ab =>
        rw [hab] at hmatch
        simp only [Bool.and_eq_true, beq_iff_eq] at hmatch
        obtain ⟨⟨hbase, hexc⟩, hexa⟩ := hmatch
        subst hmk
        exact ⟨rfl, hcfMem.1, hafMem.1, hcfMem.2, hafMem.2, by rw [hab, hbase], hexc, hexa⟩

mutual

/-- Every pair produced by the recursive scan comes from the directory-level
scan of one visited directory listing, recorded under the pair's own
`directory` field. -/
theorem mem_scan_listing (ex : String → Bool) (options : ScriptOptions) :
    ∀ (searchPath : String) (t : FSTree) (p : CueAudioPair),
      p ∈ scanCueAudioPairs searchPath ex options t →
      ∃ files, (p.directory, files) ∈ dirListings searchPath t ∧
        p ∈ findCueAudioPairsInDirectory p.directory (some files) ex options
  | searchPath, .node readable files subdirs, p => by
      intro hp
      simp only [scanCueAudioPairs] at hp
      cases hr : readable with
      | false =>
          rw [hr, if_neg Bool.false_ne_true] at hp
          simp [findCueAudioPairsInDirectory] at hp
      | true =>
          rw [hr, if_pos rfl, List.mem_append] at hp
          cases hp with
          | inl hp =>
              have hdir := (mem_findDir_props hp).1
              refine ⟨files ++ subdirs.map (fun e => e.1), ?_, ?_⟩
              · rw [hdir]; simp [dirListings]
              · rw [hdir]; exact hp
          | inr hp =>
              obtain ⟨fs, hmem, hfind⟩ := mem_scanList_listing ex options searchPath subdirs p hp
              exact ⟨fs, by simp [dirListings, hmem], hfind⟩

/-- `mem_scan_listing` over a subdirectory list. -/
theorem mem_scanList_listing (ex : String → Bool) (options : ScriptOptions) :
    ∀ (searchPath : String) (entries : List (String × FSTree)) (p : CueAudioPair),
      p ∈ scanSubdirList searchPath ex options entries →
      ∃ files, (p.directory, files) ∈ dirListingsList searchPath entries ∧
        p ∈ findCueAudioPairsInDirectory p.directory (some files) ex options
  | searchPath, [], p => by intro hp; simp [scanSubdirList] at hp
  | searchPath, (name, sub) :: rest, p => by
      intro hp
      simp only [scanSubdirList] at hp
      rw [List.mem_append] at hp
      cases hp with
      | inl hp =>
          obtain ⟨fs, hmem, hfind⟩ :=
            mem_scan_listing ex options (joinPath searchPath name) sub p hp
          refine ⟨fs, ?_, hfind⟩
          simp only [dirListingsList]
          rw [List.mem_append]
          exact Or.inl hmem
      | inr hp =>
          obtain ⟨fs, hmem, hfind⟩ := mem_scanList_listing ex options searchPath rest p hp
          refine ⟨fs, ?_, hfind⟩
          simp only [dirListingsList]
          rw [List.mem_append]
          exact Or.inr hmem

end

/-! ## Claims about the pair scanner -/

/-- C1 counterexample: a directory holding `album.cue`, `album.flac` and two
track files from a prior split is NOT recognised as already split — the
scanner still yields a pair for it, refuting the claim that it yields zero
pairs. -/
theorem claim_C1_counterexample :
    scanCueAudioPairs "album" (fun _ => true) ⟨false, false⟩
        (.node true ["album.cue", "album.flac", "01. One.flac", "02. Two.flac"] []) ≠ []
    ∧ findCueAudioPairsInDirectory "album"
        (some ["album.cue", "album.flac", "01. One.flac", "02. Two.flac"])
        (fun _ => true) ⟨false, false⟩
      = [⟨"album", "album.cue", "album.flac"⟩] := by
  constructor
  · decide
  · decide

/-- C1 amended: a directory containing `album.cue`, `album.flac` and two
`.flac` track files from a prior split yields exactly one pair (the
`album.cue`/`album.flac` pair is re-offered); the presence of split track
files does not suppress it. The only already-split marker is an entry named
`__temp_split` together with `ignoreFailed`, which does suppress the
directory. -/
theorem claim_C1_amended :
    findCueAudioPairsInDirectory "album"
        (some ["album.cue", "album.flac", "01. One.flac", "02. Two.flac"])
        (fun _ => true) ⟨false, false⟩
      = [⟨"album", "album.cue", "album.flac"⟩]
    ∧ findCueAudioPairsInDirectory "album"
        (some ["album.cue", "album.flac", "01. One.flac", "02. Two.flac"])
        (fun _ => true) ⟨true, false⟩
      = [⟨"album", "album.cue", "album.flac"⟩]
    ∧ findCueAudioPairsInDirectory "album"
        (some ["album.cue", "album.flac", "01. One.flac", "02. Two.flac", "__temp_split"])
        (fun _ => true) ⟨true, false⟩
      = [] := by
  refine ⟨?_, ?_, ?_⟩ <;> decide

/-- C2: a directory whose listing has exactly one cue file, together with an
audio file of equal basename (extension stripped, extension match
case-insensitive), both existing on disk — and which is not suppressed by
the `ignoreFailed`/`__temp_split` skip — contributes exactly one pair. -/
theorem claim_C2 (searchPath : String) (files : List String) (ex : String → Bool)
    (options : ScriptOptions) (cueFile audioFile : String)
    (hskip : ¬(options.ignoreFailed = true ∧ files.contains "__temp_split" = true))
    (hcue : files.filter isCueFile = [cueFile])
    (haud : audioFile ∈ files) (haudio : isAudioFile audioFile = true)
    (hab : audioBasename audioFile = some (getBasename cueFile (some FILE_EXTENSIONS.CUE)))
    (hexc : ex (joinPath searchPath cueFile) = true)
    (hexa : ex (joinPath searchPath audioFile) = true) :
    (findCueAudioPairsInDirectory searchPath (some files) ex options).length = 1 := by
  have hcond : (options.ignoreFailed && files.contains "__temp_split") = false := by
    cases hI : options.ignoreFailed with
    | false => simp
    | true =>
        cases hT : files.contains "__temp_split" with
        | false => simp
        | true => exact absurd ⟨hI, hT⟩ hskip
  have hmatch : audioMatches searchPath ex cueFile
      (getBasename cueFile (some FILE_EXTENSIONS.CUE)) audioFile = true := by
    unfold audioMatches
    rw [hab]
    simp [hexc, hexa]
  have hmem : audioFile ∈ files.filter isAudioFile := List.mem_filter.mpr ⟨haud, haudio⟩
  have hsome : ((files.filter isAudioFile).find?
      (audioMatches searchPath ex cueFile
        (getBasename cueFile (some FILE_EXTENSIONS.CUE)))).isSome = true :=
    List.find?_isSome.mpr ⟨audioFile, hmem, hmatch⟩
  obtain ⟨x, hx⟩ := Option.isSome_iff_exists.mp hsome
  have hpc : pairForCue searchPath ex (files.filter isAudioFile) cueFile
      = some ⟨searchPath, cueFile, x⟩ := by
    simp only [pairForCue]
    rw [hx]
    rfl
  simp only [findCueAudioPairsInDirectory]
  rw [hcond, if_neg Bool.false_ne_true, hcue]
  rw [List.filterMap_cons, hpc]
  rfl

/-- C2 witness. -/
theorem claim_C2_witness :
    (findCueAudioPairsInDirectory "album" (some ["cover.jpg", "album.cue", "album.flac"])
        (fun _ => true) ⟨false, false⟩).length = 1 :=
  claim_C2 "album" ["cover.jpg", "album.cue", "album.flac"] (fun _ => true) ⟨false, false⟩
    "album.cue" "album.flac" (by decide) (by decide) (by decide) (by decide)
    (by decide) (by decide) (by decide)

/-- C3: every pair produced by the scan satisfies the data-model invariant:
its cue file is a `.cue` file, its audio file a `.flac`/`.wav` file (the
extension match is case-insensitive), their basenames (extension stripped)
agree, and both names come from the single `readdir` listing of the pair's
own `directory`, one of the directories visited by the scan. -/
theorem claim_C3 (root : String) (ex : String → Bool) (options : ScriptOptions)
    (t : FSTree) (p : CueAudioPair)
    (hp : p ∈ scanCueAudioPairs root ex options t) :
    isCueFile p.cueFile = true ∧ isAudioFile p.audioFile = true ∧
    audioBasename p.audioFile = some (getBasename p.cueFile (some FILE_EXTENSIONS.CUE)) ∧
    ∃ files, (p.directory, files) ∈ dirListings root t ∧
      p.cueFile ∈ files ∧ p.audioFile ∈ files := by
  obtain ⟨files, hmem, hfind⟩ := mem_scan_listing ex options root t p hp
  obtain ⟨_, hcf, haf, hic, hia, hbase, _, _⟩ := mem_findDir_props hfind
  exact ⟨hic, hia, hbase, files, hmem, hcf, haf⟩

/-- C3 witness. -/
theorem claim_C3_witness :
    isCueFile (CueAudioPair.cueFile ⟨"root/album", "album.cue", "album.flac"⟩) = true ∧
    isAudioFile (CueAudioPair.audioFile ⟨"root/album", "album.cue", "album.flac"⟩) = true ∧
    audioBasename (CueAudioPair.audioFile ⟨"root/album", "album.cue", "album.flac"⟩)
      = some (getBasename (CueAudioPair.cueFile ⟨"root/album", "album.cue", "album.flac"⟩)
          (some FILE_EXTENSIONS.CUE)) ∧
    ∃ files,
      ((CueAudioPair.directory ⟨"root/album", "album.cue", "album.flac"⟩, files) ∈
        dirListings "root"
          (.node true ["x.txt"] [("album", .node true ["album.cue", "album.flac"] [])])) ∧
      CueAudioPair.cueFile ⟨"root/album", "album.cue", "album.flac"⟩ ∈ files ∧
      CueAudioPair.audioFile ⟨"root/album", "album.cue", "album.flac"⟩ ∈ files :=
  claim_C3 "root" (fun _ => true) ⟨false, false⟩
    (.node true ["x.txt"] [("album", .node true ["album.cue", "album.flac"] [])])
    ⟨"root/album", "album.cue", "album.flac"⟩ (by decide)

/-- C4: with `ignoreFailed` set, a directory whose listing contains an entry
named exactly `__temp_split` contributes zero pairs — both at the level of
the single-directory scan and inside the recursive scan, where only its
subdirectories can still contribute. -/
theorem claim_C4 (options : ScriptOptions) (hig : options.ignoreFailed = true) :
    (∀ (searchPath : String) (files : List String) (ex : String → Bool),
        files.contains "__temp_split" = true →
        findCueAudioPairsInDirectory searchPath (some files) ex options = [])
    ∧ (∀ (searchPath : String) (ex : String → Bool) (files : List String)
          (subdirs : List (String × FSTree)),
        (files ++ subdirs.map (fun e => e.1)).contains "__temp_split" = true →
        scanCueAudioPairs searchPath ex options (.node true files subdirs)
          = scanSubdirList searchPath ex options subdirs) := by
  constructor
  · intro searchPath files ex hmem
    simp only [findCueAudioPairsInDirectory]
    rw [hig, hmem]
    rfl
  · intro searchPath ex files subdirs hmem
    simp only [scanCueAudioPairs]
    rw [if_pos trivial]
    simp only [findCueAudioPairsInDirectory]
    rw [hig, hmem]
    rfl

/-- C4 witness. -/
theorem claim_C4_witness :
    findCueAudioPairsInDirectory "album" (some ["album.cue", "album.flac", "__temp_split"])
        (fun _ => true) ⟨true, true⟩ = [] :=
  (claim_C4 ⟨true, true⟩ (by decide)).1 "album" ["album.cue", "album.flac", "__temp_split"]
    (fun _ => true) (by decide)

/-- C5: when several audio files match a cue file's basename, the pair uses
the first match in the iteration order of the audio-file list (`break` after
the first hit); inside the loop the flac extension is checked before the wav
extension when stripping the candidate's basename. -/
theorem claim_C5 :
    (∀ (searchPath : String) (ex : String → Bool) (cueFile : String)
        (pre post : List String) (a : String),
        (∀ b ∈ pre,
          audioMatches searchPath ex cueFile
            (getBasename cueFile (some FILE_EXTENSIONS.CUE)) b = false) →
        audioMatches searchPath ex cueFile
            (getBasename cueFile (some FILE_EXTENSIONS.CUE)) a = true →
        pairForCue searchPath ex (pre ++ a :: post) cueFile
          = some ⟨searchPath, cueFile, a⟩)
    ∧ (∀ f, isFlacFile f = true →
        audioBasename f = some (getBasename f (some FILE_EXTENSIONS.FLAC)))
    ∧ (∀ f, isFlacFile f = false → isWavFile f = true →
        audioBasename f = some (getBasename f (some FILE_EXTENSIONS.WAV))) := by
  refine ⟨?_, ?_, ?_⟩
  · intro searchPath ex cueFile pre post a hpre ha
    simp only [pairForCue]
    rw [find?_append_first hpre ha]
    rfl
  · intro f hf
    simp only [audioBasename]
    rw [hf, if_pos rfl]
  · intro f hf hw
    simp only [audioBasename]
    rw [hf, if_neg Bool.false_ne_true, hw, if_pos rfl]

/-- C5 witness: with both `album.flac` and `album.wav` present, the earlier
entry of the listing (`album.flac`) is chosen. -/
theorem claim_C5_witness :
    pairForCue "d" (fun _ => true) (["cover.jpg"] ++ "album.flac" :: ["album.wav"]) "album.cue"
      = some ⟨"d", "album.cue", "album.flac"⟩ :=
  claim_C5.1 "d" (fun _ => true) "album.cue" ["cover.jpg"] ["album.wav"] "album.flac"
    (by decide) (by decide)

/-! ## Claims about the interactive driver -/

/-- C6: once a pair's processing begins and fails, the driver loop attempts
no later pair — the attempted list ends at the failing pair — whereas a
declined per-pair confirmation merely skips that pair and continues; and a
failing Splitter invocation makes the pair's processing fail. -/
theorem claim_C6 :
    (∀ (askProcess splitOk askCleanup cleanupOk : CueAudioPair → Bool)
        (l₁ l₂ : List CueAudioPair) (p : CueAudioPair),
        (∀ q ∈ l₁, askProcess q = true →
          processCueAudioPair splitOk askCleanup cleanupOk q = true) →
        askProcess p = true →
        processCueAudioPair splitOk askCleanup cleanupOk p = false →
        (processLoop askProcess (processCueAudioPair splitOk askCleanup cleanupOk)
            (l₁ ++ p :: l₂)).attempted
          = l₁.filter askProcess ++ [p])
    ∧ (∀ (askProcess process : CueAudioPair → Bool) (q : CueAudioPair)
          (rest : List CueAudioPair),
        askProcess q = false →
        processLoop askProcess process (q :: rest) = processLoop askProcess process rest)
    ∧ (∀ (splitOk askCleanup cleanupOk : CueAudioPair → Bool) (p : CueAudioPair),
        splitOk p = false → processCueAudioPair splitOk askCleanup cleanupOk p = false) := by
  refine ⟨?_, ?_, ?_⟩
  · intro askProcess splitOk askCleanup cleanupOk l₁ l₂ p
    induction l₁ with
    | nil =>
        intro _ hask hfail
        simp [processLoop, hask, hfail]
    | cons q qs ih =>
        intro hpre hask hfail
        have hq := hpre q (List.mem_cons_self q qs)
        have hrest : ∀ x ∈ qs, askProcess x = true →
            processCueAudioPair splitOk askCleanup cleanupOk x = true :=
          fun x hx => hpre x (List.mem_cons_of_mem q hx)
        cases haq : askProcess q with
        | true =>
            have hpq := hq haq
            simp [processLoop, haq, hpq, List.filter_cons, ih hrest hask hfail]
        | false =>
            simp [processLoop, haq, List.filter_cons, ih hrest hask hfail]
  · intro askProcess process q rest hq
    simp [processLoop, hq]
  · intro splitOk askCleanup cleanupOk p hs
    simp [processCueAudioPair, hs]

/-- C6 witness: pair `a` succeeds, pair `b` is declined (skipped), pair `c`
fails its split, pair `d` is never attempted. -/
theorem claim_C6_witness :
    (processLoop (fun q => q.directory != "b")
        (processCueAudioPair (fun q => q.directory != "c") (fun _ => false) (fun _ => true))
        ([⟨"a", "a.cue", "a.flac"⟩, ⟨"b", "b.cue", "b.flac"⟩]
          ++ ⟨"c", "c.cue", "c.flac"⟩ :: [⟨"d", "d.cue", "d.flac"⟩])).attempted
      = [⟨"a", "a.cue", "a.flac"⟩, ⟨"b", "b.cue", "b.flac"⟩].filter (fun q => q.directory != "b")
          ++ [⟨"c", "c.cue", "c.flac"⟩] :=
  claim_C6.1 (fun q => q.directory != "b") (fun q => q.directory != "c") (fun _ => false)
    (fun _ => true) [⟨"a", "a.cue", "a.flac"⟩, ⟨"b", "b.cue", "b.flac"⟩]
    [⟨"d", "d.cue", "d.flac"⟩] ⟨"c", "c.cue", "c.flac"⟩ (by decide) (by decide) (by decide)

/-! ## Claims about the download retry loop -/

theorem downloadLoop_attempts_le (retries : Nat) (fetchOk : Nat → Bool) (attempt : Nat) :
    (downloadLoop retries fetchOk attempt).attempts ≤ retries + 1 - attempt := by
  unfold downloadLoop
  split
  · next h =>
      cases hf : fetchOk attempt with
      | true => simp [hf]; omega
      | false =>
          have ih := downloadLoop_attempts_le retries fetchOk (attempt + 1)
          simp [hf]
          omega
  · next h => simp
termination_by retries + 1 - attempt
decreasing_by omega

theorem downloadLoop_allFail (retries : Nat) (fetchOk : Nat → Bool)
    (hf : ∀ k, fetchOk k = false) (attempt : Nat) :
    downloadLoop retries fetchOk attempt
      = ⟨retries + 1 - attempt,
         (List.range' attempt (retries + 1 - attempt)).filterMap
           (fun k => if 0 < k then some (500 * k) else none),
         false⟩ := by
  unfold downloadLoop
  split
  · next h =>
      rw [hf attempt, if_neg Bool.false_ne_true]
      have ih := downloadLoop_allFail retries fetchOk hf (attempt + 1)
      rw [ih]
      have hn : retries + 1 - attempt = (retries - attempt) + 1 := by omega
      have hn2 : retries + 1 - (attempt + 1) = retries - attempt := by omega
      rw [hn2]
      simp only [DownloadRun.mk.injEq]
      refine ⟨by omega, ?_, trivial⟩
      rw [hn, List.range'_succ, List.filterMap_cons]
      by_cases h0 : 0 < attempt
      · rw [if_pos h0, if_pos h0]
        rfl
      · rw [if_neg h0, if_neg h0]
        simp
  · next h =>
      have hz : retries + 1 - attempt = 0 := by omega
      rw [hz]
      rfl
termination_by retries + 1 - attempt
decreasing_by omega

theorem filterMap_pos_delays (n : Nat) : ∀ s : Nat, 1 ≤ s →
    (List.range' s n).filterMap (fun k => if 0 < k then some (500 * k) else none)
      = (List.range' s n).map (fun k => 500 * k) := by
  induction n with
  | zero => intro s _; rfl
  | succ n ih =>
      intro s hs
      have h0 : 0 < s := by omega
      rw [List.range'_succ, List.filterMap_cons, List.map_cons, if_pos h0,
        ih (s + 1) (by omega)]

/-- C7: the download loop makes at most `retries + 1` fetch attempts; against
a consistently failing endpoint it makes exactly `retries + 1` attempts,
sleeping `500·k` ms before the k-th retry, ends unsuccessfully, and the
command exits with code 1. -/
theorem claim_C7 (retries : Nat) (fetchOk : Nat → Bool) :
    (runDownload retries fetchOk).attempts ≤ retries + 1
    ∧ ((∀ k, fetchOk k = false) →
        (runDownload retries fetchOk).attempts = retries + 1
        ∧ (runDownload retries fetchOk).delays
            = (List.range retries).map (fun k => 500 * (k + 1))
        ∧ (runDownload retries fetchOk).success = false
        ∧ downloadExitCode retries fetchOk = 1) := by
  constructor
  · have h := downloadLoop_attempts_le retries fetchOk 0
    simpa [runDownload] using h
  · intro hf
    have h := downloadLoop_allFail retries fetchOk hf 0
    have hrun : runDownload retries fetchOk
        = ⟨retries + 1,
           (List.range' 0 (retries + 1)).filterMap
             (fun k => if 0 < k then some (500 * k) else none),
           false⟩ := by
      rw [runDownload, h]
      simp
    refine ⟨by rw [hrun], ?_, by rw [hrun], by simp [downloadExitCode, hrun]⟩
    rw [hrun]
    show (List.range' 0 (retries + 1)).filterMap
        (fun k => if 0 < k then some (500 * k) else none)
      = (List.range retries).map (fun k => 500 * (k + 1))
    rw [List.range'_succ, List.filterMap_cons]
    rw [if_neg (by omega)]
    rw [filterMap_pos_delays retries 1 le_rfl]
    rw [List.range'_eq_map_range, List.map_map]
    refine List.map_congr_left ?_
    intro a _
    show 500 * (1 + a) = 500 * (a + 1)
    omega

/-! ## Claims about the download filename derivation -/

/-- C8: the saved filename is derived from the `Content-Disposition` header
when present — a response with `attachment; filename="cover.jpg"` is saved
as `cover.jpg` whatever the URL is; the RFC 5987 `filename*=` form takes
precedence over the plain `filename=` form; the basename of the URL path is
used only when the header is absent, and a header with neither form behaves
like an absent header. -/
theorem claim_C8 :
    (∀ url : String,
        filenameFromHeaders url (some "attachment; filename=\"cover.jpg\"")
          = some "cover.jpg")
    ∧ (∀ url : String,
        filenameFromHeaders url
            (some ("attachment; filename*=UTF-8" ++ String.mk [quoteS, quoteS]
              ++ "b%C3%A9st.flac; filename=plain.txt"))
          = some "bést.flac")
    ∧ filenameFromHeaders "http://example.com/music/song.flac?x=1" none = some "song.flac"
    ∧ (∀ (url cd : String),
        findStarCapture cd.data = none → findPlainCapture cd.data = none →
        filenameFromHeaders url (some cd) = filenameFromHeaders url none) := by
  refine ⟨?_, ?_, by decide, ?_⟩
  · intro url
    rfl
  · intro url
    rfl
  · intro url cd h1 h2
    simp only [filenameFromHeaders]
    rw [h1, h2]

/-- C8 witness: a header with neither `filename*=` nor `filename=` falls
back to the URL-path basename. -/
theorem claim_C8_witness :
    filenameFromHeaders "http://host/path/archive.bin" (some "attachment")
      = filenameFromHeaders "http://host/path/archive.bin" none :=
  claim_C8.2.2.2 "http://host/path/archive.bin" "attachment" (by decide) (by decide)

/-- C7 witness: with `retries = 1` and a consistently failing endpoint,
exactly 2 attempts are made, one 500 ms backoff occurs, and the exit code
is 1. -/
theorem claim_C7_witness :
    (runDownload 1 (fun _ => false)).attempts = 2
    ∧ (runDownload 1 (fun _ => false)).delays = [500]
    ∧ downloadExitCode 1 (fun _ => false) = 1 := by
  have h := (claim_C7 1 (fun _ => false)).2 (fun _ => rfl)
  refine ⟨h.1, ?_, h.2.2.2⟩
  rw [h.2.1]
  rfl

/-! ## Claims about scanner purity -/

theorem applyOp_nonmut {op : FSOp} (h : op.isMutation = false) (m : FSModel) :
    applyOp op m = m := by
  cases op <;> simp_all [FSOp.isMutation, applyOp]

theorem runOps_reads (ops : List FSOp) (h : ops.all (fun op => !op.isMutation) = true)
    (m : FSModel) : runOps ops m = m := by
  induction ops generalizing m with
  | nil => rfl
  | cons op rest ih =>
      rw [List.all_cons, Bool.and_eq_true] at h
      obtain ⟨h1, h2⟩ := h
      have hm : op.isMutation = false := by simpa using h1
      simp only [runOps, List.foldl_cons]
      rw [applyOp_nonmut hm m]
      exact ih h2 m

theorem findAudioLoopOps_reads (searchPath : String) (ex : String → Bool)
    (cueFile cueBasename : String) (l : List String) :
    ((findAudioLoopOps searchPath ex cueFile cueBasename l).2).all
      (fun op => !op.isMutation) = true := by
  induction l with
  | nil => rfl
  | cons a rest ih =>
      simp only [findAudioLoopOps]
      cases hab : audioBasename a with
      | none => exact ih
      | some ab =>
          dsimp only
          by_cases hcb : (cueBasename == ab) = true
          · rw [if_pos hcb]
            by_cases hee : (ex (joinPath searchPath cueFile)
                && ex (joinPath searchPath a)) = true
            · rw [if_pos hee]
              rfl
            · rw [if_neg hee]
              dsimp only
              rw [List.all_append, ih]
              rfl
          · rw [if_neg hcb]
            exact ih

theorem cueLoopOps_reads (searchPath : String) (ex : String → Bool)
    (audioFiles : List String) (cues : List String) :
    ((cueLoopOps searchPath ex audioFiles cues).2).all (fun op => !op.isMutation) = true := by
  induction cues with
  | nil => rfl
  | cons cf rest ih =>
      simp only [cueLoopOps]
      cases hf : (findAudioLoopOps searchPath ex cf
          (getBasename cf (some FILE_EXTENSIONS.CUE)) audioFiles).1 with
      | none =>
          dsimp only
          rw [List.all_append, findAudioLoopOps_reads searchPath ex cf
            (getBasename cf (some FILE_EXTENSIONS.CUE)) audioFiles, ih]
          rfl
      | some af =>
          dsimp only
          rw [List.all_append, findAudioLoopOps_reads searchPath ex cf
            (getBasename cf (some FILE_EXTENSIONS.CUE)) audioFiles, ih]
          rfl

theorem findDirOps_reads (searchPath : String) (files? : Option (List String))
    (ex : String → Bool) (options : ScriptOptions) :
    ((findCueAudioPairsInDirectoryOps searchPath files? ex options).2).all
      (fun op => !op.isMutation) = true := by
  cases files? with
  | none => rfl
  | some files =>
      simp only [findCueAudioPairsInDirectoryOps]
      by_cases hc : (options.ignoreFailed && files.contains "__temp_split") = true
      · rw [if_pos hc]
        rfl
      · rw [if_neg hc]
        dsimp only
        rw [List.all_cons, cueLoopOps_reads searchPath ex
          (files.filter isAudioFile) (files.filter isCueFile)]
        rfl

mutual

theorem scanOps_reads (ex : String → Bool) (options : ScriptOptions) :
    ∀ (searchPath : String) (t : FSTree),
      ((scanCueAudioPairsOps searchPath ex options t).2).all
        (fun op => !op.isMutation) = true
  | searchPath, .node readable files subdirs => by
      simp only [scanCueAudioPairsOps]
      cases readable with
      | true =>
          rw [if_pos rfl]
          have h1 := findDirOps_reads searchPath
            (some (files ++ subdirs.map (fun e => e.1))) ex options
          have h2 := scanListOps_reads ex options searchPath subdirs
          dsimp only
          rw [List.all_append, h1, List.all_cons, h2]
          rfl
      | false =>
          rw [if_neg Bool.false_ne_true]
          rfl

theorem scanListOps_reads (ex : String → Bool) (options : ScriptOptions) :
    ∀ (searchPath : String) (entries : List (String × FSTree)),
      ((scanSubdirListOps searchPath ex options entries).2).all
        (fun op => !op.isMutation) = true
  | _, [] => rfl
  | searchPath, (name, sub) :: rest => by
      simp only [scanSubdirListOps]
      have h1 := scanOps_reads ex options (joinPath searchPath name) sub
      have h2 := scanListOps_reads ex options searchPath rest
      rw [List.all_append, h1, h2]
      rfl

end

theorem findAudioLoopOps_fst (searchPath : String) (ex : String → Bool)
    (cueFile cueBasename : String) (l : List String) :
    (findAudioLoopOps searchPath ex cueFile cueBasename l).1
      = l.find? (audioMatches searchPath ex cueFile cueBasename) := by
  induction l with
  | nil => rfl
  | cons a rest ih =>
      simp only [findAudioLoopOps]
      cases hab : audioBasename a with
      | none =>
          have hm : audioMatches searchPath ex cueFile cueBasename a = false := by
            simp [audioMatches, hab]
          rw [List.find?_cons_of_neg _ (by simp [hm])]
          exact ih
      | some ab =>
          dsimp only
          by_cases hcb : (cueBasename == ab) = true
          · by_cases hee : (ex (joinPath searchPath cueFile)
                && ex (joinPath searchPath a)) = true
            · obtain ⟨hB, hC⟩ : ex (joinPath searchPath cueFile) = true
                  ∧ ex (joinPath searchPath a) = true := by simpa using hee
              have hm : audioMatches searchPath ex cueFile cueBasename a = true := by
                simp [audioMatches, hab, hcb, hB, hC]
              rw [if_pos hcb, if_pos hee, List.find?_cons_of_pos _ hm]
            · have hee' : (ex (joinPath searchPath cueFile)
                  && ex (joinPath searchPath a)) = false := by
                rwa [Bool.not_eq_true] at hee
              have hm : audioMatches searchPath ex cueFile cueBasename a = false := by
                simp only [audioMatches, hab, Bool.and_assoc, hee', Bool.and_false]
              rw [if_pos hcb, if_neg hee, List.find?_cons_of_neg _ (by simp [hm])]
              exact ih
          · have hcb' : (cueBasename == ab) = false := by rwa [Bool.not_eq_true] at hcb
            have hm : audioMatches searchPath ex cueFile cueBasename a = false := by
              simp [audioMatches, hab, hcb']
            rw [if_neg hcb, List.find?_cons_of_neg _ (by simp [hm])]
            exact ih

theorem cueLoopOps_fst (searchPath : String) (ex : String → Bool)
    (audioFiles : List String) (cues : List String) :
    (cueLoopOps searchPath ex audioFiles cues).1
      = cues.filterMap (pairForCue searchPath ex audioFiles) := by
  induction cues with
  | nil => rfl
  | cons cf rest ih =>
      simp only [cueLoopOps, List.filterMap_cons]
      have hf := findAudioLoopOps_fst searchPath ex cf
        (getBasename cf (some FILE_EXTENSIONS.CUE)) audioFiles
      cases hfind : (findAudioLoopOps searchPath ex cf
          (getBasename cf (some FILE_EXTENSIONS.CUE)) audioFiles).1 with
      | none =>
          have hp : pairForCue searchPath ex audioFiles cf = none := by
            simp only [pairForCue]
            rw [← hf, hfind]
            rfl
          rw [hp]
          exact ih
      | some af =>
          have hp : pairForCue searchPath ex audioFiles cf
              = some (CueAudioPair.mk searchPath cf af) := by
            simp only [pairForCue]
            rw [← hf, hfind]
            rfl
          rw [hp]
          simp [ih]

theorem findDirOps_fst (searchPath : String) (files? : Option (List String))
    (ex : String → Bool) (options : ScriptOptions) :
    (findCueAudioPairsInDirectoryOps searchPath files? ex options).1
      = findCueAudioPairsInDirectory searchPath files? ex options := by
  cases files? with
  | none => rfl
  | some files =>
      simp only [findCueAudioPairsInDirectoryOps, findCueAudioPairsInDirectory]
      by_cases hc : (options.ignoreFailed && files.contains "__temp_split") = true
      · rw [if_pos hc, if_pos hc]
      · rw [if_neg hc, if_neg hc]
        exact cueLoopOps_fst searchPath ex (files.filter isAudioFile) (files.filter isCueFile)

mutual

theorem scanOps_fst (ex : String → Bool) (options : ScriptOptions) :
    ∀ (searchPath : String) (t : FSTree),
      (scanCueAudioPairsOps searchPath ex options t).1
        = scanCueAudioPairs searchPath ex options t
  | searchPath, .node readable files subdirs => by
      simp only [scanCueAudioPairsOps, scanCueAudioPairs]
      cases readable with
      | true =>
          rw [if_pos rfl, if_pos rfl]
          have h1 := findDirOps_fst searchPath
            (some (files ++ subdirs.map (fun e => e.1))) ex options
          have h2 := scanListOps_fst ex options searchPath subdirs
          rw [← h1, ← h2]
      | false =>
          rw [if_neg Bool.false_ne_true, if_neg Bool.false_ne_true]
          exact findDirOps_fst searchPath none ex options

theorem scanListOps_fst (ex : String → Bool) (options : ScriptOptions) :
    ∀ (searchPath : String) (entries : List (String × FSTree)),
      (scanSubdirListOps searchPath ex options entries).1
        = scanSubdirList searchPath ex options entries
  | _, [] => rfl
  | searchPath, (name, sub) :: rest => by
      simp only [scanSubdirListOps, scanSubdirList]
      rw [← scanOps_fst ex options (joinPath searchPath name) sub,
        ← scanListOps_fst ex options searchPath rest]

end

/-- C10: the scanner mutates nothing: its trace consists of read operations
only (`readdir` and `access`), running the trace against any filesystem
state leaves the state unchanged, and the pairs the traced scan returns are
exactly those of the scan — in particular an unreadable directory yields the
pairs found before it while still leaving the state untouched. -/
theorem claim_C10 (searchPath : String) (ex : String → Bool) (options : ScriptOptions)
    (t : FSTree) (m : FSModel) :
    ((scanCueAudioPairsOps searchPath ex options t).2).all
      (fun op => !op.isMutation) = true
    ∧ runOps (scanCueAudioPairsOps searchPath ex options t).2 m = m
    ∧ (scanCueAudioPairsOps searchPath ex options t).1
        = scanCueAudioPairs searchPath ex options t := by
  have h1 := scanOps_reads ex options searchPath t
  exact ⟨h1, runOps_reads _ h1 m, scanOps_fst ex options searchPath t⟩

/-! ## Claims about the move-completed bucket logic -/

theorem resolveLoop_ex_false (ex : String → Bool) (tp : String) :
    ∀ (fuel : Nat) (np : String) (counter : Nat) (p : String) (k : Nat),
      resolveLoop ex tp fuel np counter = some (p, k) → ex p = false := by
  intro fuel
  induction fuel with
  | zero => intro np counter p k h; simp [resolveLoop] at h
  | succ fuel ih =>
      intro np counter p k h
      simp only [resolveLoop] at h
      cases hex : ex np with
      | true =>
          rw [hex, if_pos rfl] at h
          exact ih _ _ _ _ h
      | false =>
          rw [hex, if_neg Bool.false_ne_true] at h
          simp only [Option.some.injEq, Prod.mk.injEq] at h
          obtain ⟨h1, -⟩ := h
          rw [← h1]
          exact hex

theorem resolveLoop_candidates (ex : String → Bool) (tp : String) :
    ∀ (fuel : Nat) (np : String) (counter : Nat) (p : String) (k : Nat),
      resolveLoop ex tp fuel np counter = some (p, k) →
      p = np ∨ ∃ j, counter ≤ j ∧ p = conflictCandidate tp j := by
  intro fuel
  induction fuel with
  | zero => intro np counter p k h; simp [resolveLoop] at h
  | succ fuel ih =>
      intro np counter p k h
      simp only [resolveLoop] at h
      cases hex : ex np with
      | true =>
          rw [hex, if_pos rfl] at h
          rcases ih _ _ _ _ h with hc | ⟨j, hj, hcj⟩
          · exact Or.inr ⟨counter, le_refl counter, hc⟩
          · exact Or.inr ⟨j, by omega, hcj⟩
      | false =>
          rw [hex, if_neg Bool.false_ne_true] at h
          simp only [Option.some.injEq, Prod.mk.injEq] at h
          obtain ⟨h1, -⟩ := h
          exact Or.inl h1.symm

/-- C9 counterexample: an artist name starting with a digit is relocated
under the extra `A-Z` bucket, which is not one of the seven alphabetical
buckets — so "exactly one of the seven buckets" fails. -/
theorem claim_C9_counterexample :
    getTargetDirectory "50 Cent" "/library" = "/library/A-Z/50 Cent"
    ∧ ALPHABETICAL_RANGES.map (fun r => r.1)
        = ["A-D", "E-F", "G-I", "J-M", "N-Q", "R-T", "U-Z"]
    ∧ "A-Z" ∉ ALPHABETICAL_RANGES.map (fun r => r.1) := by
  refine ⟨by decide, by decide, by decide⟩

/-- C9 amended: for an artist name whose first character is an ASCII letter
or digit (where the `toUpperCase` model is exact), the bucket depends only
on that first character; an ASCII-letter initial selects one of the seven
alphabetical buckets, case-insensitively; a digit initial goes to the extra
`A-Z` bucket; and on a name collision the chosen path is a fresh
numbered-suffix candidate `name (k)` (k ≥ 1), never the already-existing
target path. -/
theorem claim_C9_amended :
    (∀ (artist dir : String) (c : Char) (rest : List Char),
        artist.data = c :: rest →
        (charBetween 'A' 'Z' c || charBetween 'a' 'z' c || charBetween '0' '9' c) = true →
        getTargetDirectory artist dir = joinPath (joinPath dir (letterBucket c)) artist)
    ∧ (∀ c ∈ ("ABCDEFGHIJKLMNOPQRSTUVWXYZabcdefghijklmnopqrstuvwxyz").data,
        letterBucket c ∈ ALPHABETICAL_RANGES.map (fun r => r.1))
    ∧ (∀ c ∈ ("abcdefghijklmnopqrstuvwxyz").data, letterBucket c = letterBucket c.toUpper)
    ∧ (∀ c ∈ ("0123456789").data, letterBucket c = "A-Z")
    ∧ (∀ (ex : String → Bool) (tp : String) (fuel : Nat) (p : String),
        resolveNamingConflict ex false tp fuel = some p → ex p = false)
    ∧ (∀ (ex : String → Bool) (tp : String) (fuel : Nat) (p : String),
        ex tp = true → resolveNamingConflict ex false tp fuel = some p →
        p ≠ tp ∧ ∃ k, 1 ≤ k ∧ p = conflictCandidate tp k) := by
  have hres : ∀ (ex : String → Bool) (tp : String) (fuel : Nat) (p : String),
      resolveNamingConflict ex false tp fuel = some p →
      ∃ k, resolveLoop ex tp fuel tp 1 = some (p, k) := by
    intro ex tp fuel p h
    simp only [resolveNamingConflict, if_neg Bool.false_ne_true] at h
    rw [Option.map_eq_some'] at h
    obtain ⟨⟨q, k⟩, hq, hqp⟩ := h
    dsimp at hqp
    subst hqp
    exact ⟨k, hq⟩
  refine ⟨?_, by decide, by decide, by decide, ?_, ?_⟩
  · intro artist dir c rest hdata _hfirst
    simp only [getTargetDirectory, letterBucket, hdata]
    cases hfind : ALPHABETICAL_RANGES.find?
        (fun range => match toUpperJS c with | [] => false | u :: _ => range.2 u) with
    | some range => rfl
    | none => cases h09 : charBetween '0' '9' c <;> simp [h09]
  · intro ex tp fuel p h
    obtain ⟨k, hk⟩ := hres ex tp fuel p h
    exact resolveLoop_ex_false ex tp fuel tp 1 p k hk
  · intro ex tp fuel p hex h
    obtain ⟨k, hk⟩ := hres ex tp fuel p h
    have hpf : ex p = false := resolveLoop_ex_false ex tp fuel tp 1 p k hk
    have hne : p ≠ tp := by
      intro hpt
      rw [hpt, hex] at hpf
      exact Bool.noConfusion hpf
    rcases resolveLoop_candidates ex tp fuel tp 1 p k hk with hc | ⟨j, hj, hcj⟩
    · exact absurd hc hne
    · exact ⟨hne, j, hj, hcj⟩

/-- C9 witness: `Metallica` lands in the `J-M` bucket; with
`/lib/J-M/Metallica` already existing, the loop picks the fresh candidate
`/lib/J-M/Metallica (1)`. -/
theorem claim_C9_witness :
    (getTargetDirectory "Metallica" "/lib"
        = joinPath (joinPath "/lib" (letterBucket 'M')) "Metallica")
    ∧ letterBucket 'M' ∈ ALPHABETICAL_RANGES.map (fun r => r.1)
    ∧ ((fun s => s == "/lib/J-M/Metallica") "/lib/J-M/Metallica (1)" = false)
    ∧ "/lib/J-M/Metallica (1)" ≠ "/lib/J-M/Metallica"
    ∧ ∃ k, 1 ≤ k ∧ "/lib/J-M/Metallica (1)" = conflictCandidate "/lib/J-M/Metallica" k := by
  have h1 := claim_C9_amended.1 "Metallica" "/lib" 'M' ("etallica").data (by decide) (by decide)
  have h2 := claim_C9_amended.2.1 'M' (by decide)
  have h5 := claim_C9_amended.2.2.2.2.1 (fun s => s == "/lib/J-M/Metallica")
    "/lib/J-M/Metallica" 5 "/lib/J-M/Metallica (1)" (by decide)
  have h6 := claim_C9_amended.2.2.2.2.2 (fun s => s == "/lib/J-M/Metallica")
    "/lib/J-M/Metallica" 5 "/lib/J-M/Metallica (1)" (by decide) (by decide)
  exact ⟨h1, h2, h5, h6.1, h6.2⟩

end NasTools
